import Mathlib

/-!
Verification of the hex-grid Game-of-Life core (`src/main.rs`).

Shallow embedding conventions:
* `f32` arithmetic is modelled by exact rational arithmetic (`ℚ`); decimal
  literals of the source keep their exact decimal value.
* `IVec2`/`IVec3` become `ℤ × ℤ` / `ℤ × ℤ × ℤ`.
* The ECS state relevant to the automaton is modelled by two finite sets of
  axial coordinates: `grid` (the key set of the `HexMap` resource, one entity
  per coordinate) and `alive` (the coordinates of entities carrying the
  `Alive` tag).  The bevy `Commands` queue defers all tag mutations until the
  system has finished, so every query made inside `game_of_life` reads the
  pre-step state; the embedding encodes the survey loop as a fold that only
  reads `alive` and accumulates the deferred mutations.
* Fallible steps (`unwrap`, `Option` returns) become `Option`; `none` models
  a panic.
-/

/-- Axial hex coordinate `(q, r)`, the `AxialCoordinate(IVec2)` of the source. -/
abbrev Axial : Type := ℤ × ℤ

/-- The six canonical neighbour offsets, in the order listed in
`AxialCoordinate::neighbour_iter`. -/
def neighbour_offsets : List Axial :=
  [(1, 0), (1, -1), (0, -1), (-1, 0), (-1, 1), (0, 1)]

/-- The method `AxialCoordinate::neighbour_iter`: the six neighbours of `a`, each the
componentwise sum of `a` and one offset. -/
def neighbour_iter (a : Axial) : List Axial :=
  neighbour_offsets.map (fun n => (a.1 + n.1, a.2 + n.2))

/-- The constant `SQRT_3: f32 = 1.732_050_8`, kept at its exact decimal value. -/
def SQRT_3 : ℚ := 1.7320508

/-- The constant `HEX_SIZE: f32 = 10.`. -/
def HEX_SIZE : ℚ := 10

/-- Rust `f32::round`: round to the nearest integer, halves away from zero.
Mathlib's `round` rounds halves up, so the negative side is mirrored. -/
def rustRound (x : ℚ) : ℤ :=
  if 0 ≤ x then round x else -round (-x)

/-- The function `axial_to_screen`: `size * flat_basis * hex_pos`, with column-major basis
`[3/2, √3/2, 0, √3]`, i.e. `x = size·(3/2·q)`, `y = size·(√3/2·q + √3·r)`. -/
def axial_to_screen (size : ℚ) (hex_pos : Axial) : ℚ × ℚ :=
  (size * (3 / 2 * hex_pos.1 + 0 * hex_pos.2),
   size * (SQRT_3 / 2 * hex_pos.1 + SQRT_3 * hex_pos.2))

/-- The function `screen_to_cube_float`: inverse basis `[2/3, -1/3, 0, √3/3]` applied to
`point / size`, then `s = -q - r`. -/
def screen_to_cube_float (size : ℚ) (point : ℚ × ℚ) : ℚ × ℚ × ℚ :=
  let qf := (2 / 3 * point.1 + 0 * point.2) / size
  let rf := (-(1 / 3) * point.1 + SQRT_3 / 3 * point.2) / size
  (qf, rf, -qf - rf)

/-- The function `cube_round`: round the three axes independently, then recompute the axis
with the largest rounding error from the other two. -/
def cube_round (cube : ℚ × ℚ × ℚ) : ℤ × ℤ × ℤ :=
  let rx := rustRound cube.1
  let ry := rustRound cube.2.1
  let rz := rustRound cube.2.2
  let dx := |(rx : ℚ) - cube.1|
  let dy := |(ry : ℚ) - cube.2.1|
  let dz := |(rz : ℚ) - cube.2.2|
  if dx > dy ∧ dx > dz then (-ry - rz, ry, rz)
  else if dy > dz then (rx, -rx - rz, rz)
  else (rx, ry, -rx - ry)

/-- The conversion `impl From<CubeCoordinate> for AxialCoordinate`: project out `s`. -/
def cube_to_axial (cube : ℤ × ℤ × ℤ) : Axial :=
  (cube.1, cube.2.1)

/-- The per-axis rounding-error magnitudes `(rounded_cube - cube).abs` of
`cube_round`, indexed `0 = q`, `1 = r`, `2 = s`. -/
def err_at (cube : ℚ × ℚ × ℚ) : Fin 3 → ℚ
  | 0 => |(rustRound cube.1 : ℚ) - cube.1|
  | 1 => |(rustRound cube.2.1 : ℚ) - cube.2.1|
  | 2 => |(rustRound cube.2.2 : ℚ) - cube.2.2|

/-- The axis that the branch structure of `cube_round` recomputes. -/
def repair_axis (cube : ℚ × ℚ × ℚ) : Fin 3 :=
  if err_at cube 0 > err_at cube 1 ∧ err_at cube 0 > err_at cube 2 then 0
  else if err_at cube 1 > err_at cube 2 then 1
  else 2

/-- Replace the given axis of an independently rounded triple by the negated
sum of the other two. -/
def apply_repair (r : ℤ × ℤ × ℤ) : Fin 3 → ℤ × ℤ × ℤ
  | 0 => (-r.2.1 - r.2.2, r.2.1, r.2.2)
  | 1 => (r.1, -r.1 - r.2.2, r.2.2)
  | 2 => (r.1, r.2.1, -r.1 - r.2.1)

/-- C3: for every continuous input vector, the cube coordinate returned by
`cube_round` satisfies `q + r + s = 0` exactly. -/
theorem cube_round_sum_eq_zero (cube : ℚ × ℚ × ℚ) :
    (cube_round cube).1 + (cube_round cube).2.1 + (cube_round cube).2.2 = 0 := by
  unfold cube_round
  dsimp only
  split_ifs <;> dsimp <;> ring

/-- C9: `neighbour_iter (q, r)` yields exactly 6 pairwise-distinct
coordinates, and subtracting `(q, r)` from them componentwise gives back
exactly the list of the six canonical unit offsets, so each offset is used
exactly once. -/
theorem neighbour_iter_spec (a : Axial) :
    (neighbour_iter a).length = 6 ∧ (neighbour_iter a).Nodup ∧
      (neighbour_iter a).map (fun n => (n.1 - a.1, n.2 - a.2)) =
        neighbour_offsets := by
  refine ⟨rfl, ?_, ?_⟩
  · simp [neighbour_iter, neighbour_offsets, Prod.ext_iff]
  · simp [neighbour_iter, neighbour_offsets]

/-- C5: `cube_round` rounds the three axes independently and then recomputes
exactly the axis selected by `repair_axis` from the other two; that axis
always carries the largest rounding-error magnitude, and the selection is
characterised by comparing the q-error with the r- and s-errors and the
r-error with the s-error, ties selecting r over q and s over r. -/
theorem cube_round_repair_characterisation (cube : ℚ × ℚ × ℚ) :
    cube_round cube =
        apply_repair
          (rustRound cube.1, rustRound cube.2.1, rustRound cube.2.2)
          (repair_axis cube) ∧
      err_at cube (repair_axis cube) =
        max (max (err_at cube 0) (err_at cube 1)) (err_at cube 2) ∧
      (repair_axis cube = 0 ↔
        err_at cube 0 > err_at cube 1 ∧ err_at cube 0 > err_at cube 2) ∧
      (repair_axis cube = 1 ↔
        ¬(err_at cube 0 > err_at cube 1 ∧ err_at cube 0 > err_at cube 2) ∧
          err_at cube 1 > err_at cube 2) ∧
      (repair_axis cube = 2 ↔
        ¬(err_at cube 0 > err_at cube 1 ∧ err_at cube 0 > err_at cube 2) ∧
          ¬(err_at cube 1 > err_at cube 2)) := by
  have e0 : err_at cube 0 = |(rustRound cube.1 : ℚ) - cube.1| := rfl
  have e1 : err_at cube 1 = |(rustRound cube.2.1 : ℚ) - cube.2.1| := rfl
  have e2 : err_at cube 2 = |(rustRound cube.2.2 : ℚ) - cube.2.2| := rfl
  unfold cube_round repair_axis
  rw [e0, e1, e2]
  dsimp only
  split_ifs with h1 h2
  · refine ⟨rfl, ?_, ?_, ?_, ?_⟩
    · rw [e0, max_eq_left h1.1.le, max_eq_left h1.2.le]
    · exact iff_of_true rfl h1
    · exact iff_of_false (by decide) (fun h => h.1 h1)
    · exact iff_of_false (by decide) (fun h => h.1 h1)
  · have hle : |(rustRound cube.1 : ℚ) - cube.1| ≤
        |(rustRound cube.2.1 : ℚ) - cube.2.1| := by
      rcases not_and_or.mp h1 with h | h
      · exact not_lt.mp h
      · exact (not_lt.mp h).trans h2.le
    refine ⟨rfl, ?_, ?_, ?_, ?_⟩
    · rw [e1, max_eq_right hle, max_eq_left h2.le]
    · exact iff_of_false (by decide) h1
    · exact iff_of_true rfl ⟨h1, h2⟩
    · exact iff_of_false (by decide) (fun h => h.2 h2)
  · have hle21 : |(rustRound cube.2.1 : ℚ) - cube.2.1| ≤
        |(rustRound cube.2.2 : ℚ) - cube.2.2| := not_lt.mp h2
    have hle : |(rustRound cube.1 : ℚ) - cube.1| ≤
        |(rustRound cube.2.2 : ℚ) - cube.2.2| := by
      rcases not_and_or.mp h1 with h | h
      · exact (not_lt.mp h).trans hle21
      · exact not_lt.mp h
    refine ⟨rfl, ?_, ?_, ?_, ?_⟩
    · rw [e2, max_eq_right (max_le hle hle21)]
    · exact iff_of_false (by decide) h1
    · exact iff_of_false (by decide) (fun h => h2 h.2)
    · exact iff_of_true rfl ⟨h1, h2⟩

/-- A rational within `1/2` of zero rounds to zero. -/
lemma round_eq_zero_of_abs_lt {t : ℚ} (h : |t| < 1 / 2) : round t = 0 := by
  rcases abs_lt.mp h with ⟨h1, h2⟩
  rw [round_eq_zero_iff]
  exact ⟨by linarith, h2⟩

/-- The function `rustRound` maps an integer perturbed by less than `1/2` back to it. -/
lemma rustRound_int_add (n : ℤ) (t : ℚ) (h : |t| < 1 / 2) :
    rustRound ((n : ℚ) + t) = n := by
  have ht : round t = 0 := round_eq_zero_of_abs_lt h
  have ht' : round (-t) = 0 := round_eq_zero_of_abs_lt (by rwa [abs_neg])
  unfold rustRound
  split_ifs with hs
  · rw [add_comm, round_add_int, ht, zero_add]
  · have hneg : -((n : ℚ) + t) = -t + ((-n : ℤ) : ℚ) := by push_cast; ring
    rw [hneg, round_add_int, ht', zero_add, neg_neg]

/-- The function `rustRound` is the identity on integers. -/
lemma rustRound_int (n : ℤ) : rustRound ((n : ℚ)) = n := by
  have := rustRound_int_add n 0 (by norm_num)
  simpa using this

/-- The function `cube_round` on an exact integer first axis and the other two axes
perturbed by `t` and `-t` with `|t| < 1/2` recovers the integer cube. -/
lemma cube_round_int_perturb (q r : ℤ) (t : ℚ) (h : |t| < 1 / 2) :
    cube_round ((q : ℚ), (r : ℚ) + t, ((-q - r : ℤ) : ℚ) + -t) =
      (q, r, -q - r) := by
  unfold cube_round
  dsimp only
  rw [rustRound_int q, rustRound_int_add r t h,
    rustRound_int_add (-q - r) (-t) (by rwa [abs_neg])]
  have d1 : |(q : ℚ) - (q : ℚ)| = 0 := by simp
  have d2 : |(r : ℚ) - ((r : ℚ) + t)| = |t| := by
    rw [show (r : ℚ) - ((r : ℚ) + t) = -t by ring, abs_neg]
  have d3 : |((-q - r : ℤ) : ℚ) - (((-q - r : ℤ) : ℚ) + -t)| = |t| := by
    rw [show ((-q - r : ℤ) : ℚ) - (((-q - r : ℤ) : ℚ) + -t) = t by ring]
  rw [d1, d2, d3]
  rw [if_neg (fun hc => absurd hc.1 (not_lt.mpr (abs_nonneg t)))]
  rw [if_neg (lt_irrefl |t|)]

/-- C4: for every integer axial coordinate in the generated range
`-100..100` and every positive size, screen placement followed by the inverse
conversion, robust rounding and axial projection returns the coordinate. -/
theorem round_trip_identity (size : ℚ) (q r : ℤ) (hs : 0 < size)
    (hq1 : -100 ≤ q) (hq2 : q ≤ 99) (hr1 : -100 ≤ r) (hr2 : r ≤ 99) :
    cube_to_axial
        (cube_round (screen_to_cube_float size (axial_to_screen size (q, r)))) =
      (q, r) := by
  have hsz : size ≠ 0 := ne_of_gt hs
  have key : screen_to_cube_float size (axial_to_screen size (q, r)) =
      ((q : ℚ), (r : ℚ) + (SQRT_3 ^ 2 - 3) / 3 * ((q : ℚ) / 2 + (r : ℚ)),
        ((-q - r : ℤ) : ℚ) +
          -((SQRT_3 ^ 2 - 3) / 3 * ((q : ℚ) / 2 + (r : ℚ)))) := by
    simp only [screen_to_cube_float, axial_to_screen, Prod.ext_iff]
    refine ⟨?_, ?_, ?_⟩
    · field_simp
      ring
    · field_simp
      ring
    · push_cast
      field_simp
      ring
  have hval : (SQRT_3 ^ 2 - 3) / 3 = -(163871 / 18750000000000) := by
    norm_num [SQRT_3]
  have hq1' : (-100 : ℚ) ≤ (q : ℚ) := by exact_mod_cast hq1
  have hq2' : (q : ℚ) ≤ 99 := by exact_mod_cast hq2
  have hr1' : (-100 : ℚ) ≤ (r : ℚ) := by exact_mod_cast hr1
  have hr2' : (r : ℚ) ≤ 99 := by exact_mod_cast hr2
  have habs : |(q : ℚ) / 2 + (r : ℚ)| ≤ 150 :=
    abs_le.mpr ⟨by linarith, by linarith⟩
  have hbound : |(SQRT_3 ^ 2 - 3) / 3 * ((q : ℚ) / 2 + (r : ℚ))| < 1 / 2 := by
    rw [abs_mul, hval, abs_neg, abs_of_nonneg (by norm_num)]
    calc (163871 / 18750000000000 : ℚ) * |(q : ℚ) / 2 + (r : ℚ)|
        ≤ 163871 / 18750000000000 * 150 :=
          mul_le_mul_of_nonneg_left habs (by norm_num)
      _ < 1 / 2 := by norm_num
  rw [key, cube_round_int_perturb q r _ hbound]
  rfl

/-- C4 witness: the round trip at `size = 10`, `(q, r) = (5, -3)`. -/
theorem round_trip_identity_witness :
    (0 : ℚ) < 10 ∧ (-100 : ℤ) ≤ 5 ∧ (5 : ℤ) ≤ 99 ∧ (-100 : ℤ) ≤ -3 ∧
      (-3 : ℤ) ≤ 99 ∧
      cube_to_axial
          (cube_round (screen_to_cube_float 10 (axial_to_screen 10 (5, -3)))) =
        (5, -3) :=
  ⟨by norm_num, by decide, by decide, by decide, by decide,
    round_trip_identity 10 5 (-3) (by norm_num) (by decide) (by decide)
      (by decide) (by decide)⟩

/-- The transient `dead_alive_neighbours: HashMap<Entity, u8>` of
`game_of_life`, modelled by its key set together with a total count function
(absent keys count `0`). -/
structure Tally where
  keys : Finset Axial
  val : Axial → ℕ

/-- The increment `*dead += 1` through `.entry(..).or_insert(0)`: record the key and bump
its count. -/
def Tally.bump (t : Tally) (d : Axial) : Tally :=
  ⟨insert d t.keys, Function.update t.val d (t.val d + 1)⟩

/-- One iteration of the inner neighbour loop of `game_of_life`: look the
neighbour up in the hex map; if present and alive, bump the local
alive-alive counter, if present and dead, bump its entry in the tally. -/
def visitNeighbour (grid alive : Finset Axial) (st : ℕ × Tally) (n : Axial) :
    ℕ × Tally :=
  if n ∈ grid then
    if n ∈ alive then (st.1 + 1, st.2) else (st.1, st.2.bump n)
  else st

/-- One iteration of the outer loop of `game_of_life`: survey the six
neighbours of the alive cell `a`, then queue `a` for the removal of its
`Alive` tag when its alive-alive count is not exactly 2. -/
def surveyCell (grid alive : Finset Axial) (st : List Axial × Tally)
    (a : Axial) : List Axial × Tally :=
  let r := (neighbour_iter a).foldl (visitNeighbour grid alive) (0, st.2)
  (if r.1 ≠ 2 then st.1 ++ [a] else st.1, r.2)

/-- The survey phase of `game_of_life`: fold the outer loop over the alive
cells in the given iteration order, starting from an empty removal queue and
an empty tally map. -/
def survey (grid alive : Finset Axial) (order : List Axial) :
    List Axial × Tally :=
  order.foldl (surveyCell grid alive) ([], ⟨∅, fun _ => 0⟩)

/-- The list `order` gives the alive cells once each, in some iteration order: bevy
leaves the iteration order of `query.iter()` unspecified, so the embedding
takes it as a parameter ranging over all enumerations of the alive set. -/
def Enumerates (order : List Axial) (alive : Finset Axial) : Prop :=
  order.Nodup ∧ ∀ x, x ∈ order ↔ x ∈ alive

/-- The `game_of_life` fixed-timestep system: when the game has started,
survey all alive cells (iterated in the order `order`), then apply the
queued removals and insert `Alive` on every tallied dead cell whose count is
exactly 2.  The bevy command queue applies the mutations only after the
survey is complete, so the result state is assembled from the pre-state and
the two survey products. -/
def game_of_life (started : Bool) (grid alive : Finset Axial)
    (order : List Axial) : Finset Axial :=
  if started = false then alive
  else
    let s := survey grid alive order
    (alive \ s.1.toFinset) ∪ s.2.keys.filter (fun d => s.2.val d = 2)

/-- The alive-alive neighbour count of a cell: how many of its six
neighbours are present in the hex map and alive. -/
def aliveAliveNeighbours (grid alive : Finset Axial) (a : Axial) : ℕ :=
  (neighbour_iter a).countP (fun n => decide (n ∈ grid ∧ n ∈ alive))

/-- The alive-neighbour count of a dead cell: how many of its six
neighbours are alive. -/
def deadAliveNeighbours (alive : Finset Axial) (d : Axial) : ℕ :=
  (neighbour_iter d).countP (fun n => decide (n ∈ alive))

/-- Modelled from the spec (§4.4, §9 of the design): one automaton step as a
single commit computed entirely from the pre-step partition — alive cells
with alive-alive count exactly 2 survive, dead grid cells with exactly 2
alive neighbours are born. -/
def game_of_life_spec (started : Bool) (grid alive : Finset Axial) :
    Finset Axial :=
  if started = false then alive
  else
    alive.filter (fun a => aliveAliveNeighbours grid alive a = 2) ∪
      (grid \ alive).filter (fun d => deadAliveNeighbours alive d = 2)

/-- Neighbourhood is symmetric: the six offsets are closed under negation. -/
lemma mem_neighbour_iter_comm (a b : Axial) :
    a ∈ neighbour_iter b ↔ b ∈ neighbour_iter a := by
  simp only [neighbour_iter, neighbour_offsets, List.map_cons, List.map_nil,
    List.mem_cons, List.not_mem_nil, or_false, Prod.ext_iff]
  omega

/-- The six neighbours of a coordinate are pairwise distinct. -/
lemma nodup_neighbour_iter (a : Axial) : (neighbour_iter a).Nodup := by
  simp [neighbour_iter, neighbour_offsets, Prod.ext_iff]

/-- Counting the elements of one duplicate-free list that lie in another is
symmetric in the two lists. -/
lemma countP_mem_comm {A B : List Axial} (hA : A.Nodup) (hB : B.Nodup) :
    A.countP (fun x => decide (x ∈ B)) = B.countP (fun x => decide (x ∈ A)) := by
  rw [List.countP_eq_length_filter, List.countP_eq_length_filter]
  apply List.Perm.length_eq
  rw [List.perm_ext_iff_of_nodup (hA.filter _) (hB.filter _)]
  intro x
  simp [List.mem_filter, and_comm]

/-- The tally map invariant: recorded keys are exactly the coordinates with
a positive count. -/
def Tally.Inv (t : Tally) : Prop := ∀ x, x ∈ t.keys ↔ 0 < t.val x

/-- Bumping preserves the key/count invariant. -/
lemma Tally.Inv.bump {t : Tally} (h : t.Inv) (d : Axial) : (t.bump d).Inv := by
  intro x
  by_cases hx : x = d
  · subst hx
    simp [Tally.bump, Function.update_apply]
  · simp only [Tally.bump, Finset.mem_insert, Function.update_apply, if_neg hx]
    rw [h x]
    exact or_iff_right hx

/-- The alive-alive counter accumulated over a neighbour list. -/
lemma foldl_visit_count (grid alive : Finset Axial) (l : List Axial)
    (c : ℕ) (t : Tally) :
    (l.foldl (visitNeighbour grid alive) (c, t)).1 =
      c + l.countP (fun n => decide (n ∈ grid ∧ n ∈ alive)) := by
  induction l generalizing c t with
  | nil => simp
  | cons n tl ih =>
    by_cases hg : n ∈ grid
    · by_cases ha : n ∈ alive
      · simp only [List.foldl_cons, visitNeighbour, hg, ha, if_true,
          List.countP_cons, ih]
        simp [ha, hg]
        omega
      · simp only [List.foldl_cons, visitNeighbour, hg, ha, if_true, if_false,
          List.countP_cons, ih]
        simp [ha]
    · simp only [List.foldl_cons, visitNeighbour, hg, if_false,
        List.countP_cons, ih]
      simp [hg]

/-- The tally accumulated over a neighbour list: each grid-present dead
neighbour is counted once per occurrence. -/
lemma foldl_visit_val (grid alive : Finset Axial) (l : List Axial)
    (c : ℕ) (t : Tally) (d : Axial) :
    ((l.foldl (visitNeighbour grid alive) (c, t)).2).val d =
      t.val d + (if d ∈ grid ∧ d ∉ alive then l.count d else 0) := by
  induction l generalizing c t with
  | nil => simp
  | cons n tl ih =>
    by_cases hg : n ∈ grid
    · by_cases ha : n ∈ alive
      · simp only [List.foldl_cons, visitNeighbour, hg, ha, if_true, ih]
        by_cases hc : d ∈ grid ∧ d ∉ alive
        · have hdn : ¬(n == d) = true := by
            simp only [beq_iff_eq]
            intro hEq
            exact hc.2 (hEq ▸ ha)
          rw [if_pos hc, if_pos hc, List.count_cons, if_neg hdn]
          omega
        · rw [if_neg hc, if_neg hc]
      · simp only [List.foldl_cons, visitNeighbour, hg, ha, if_true, if_false,
          ih]
        by_cases hd : d = n
        · subst hd
          have hc : d ∈ grid ∧ d ∉ alive := ⟨hg, ha⟩
          rw [if_pos hc, if_pos hc, List.count_cons]
          simp [Tally.bump, Function.update_apply]
          omega
        · have hval : (t.bump n).val d = t.val d := by
            simp [Tally.bump, Function.update_apply, hd]
          rw [hval, List.count_cons]
          have hdn : ¬(n == d) = true := by
            simp only [beq_iff_eq]
            exact fun hEq => hd hEq.symm
          rw [if_neg hdn]
          split_ifs <;> omega
    · simp only [List.foldl_cons, visitNeighbour, hg, if_false, ih]
      by_cases hc : d ∈ grid ∧ d ∉ alive
      · have hdn : ¬(n == d) = true := by
          simp only [beq_iff_eq]
          intro hEq
          exact hg (hEq ▸ hc.1)
        rw [if_pos hc, if_pos hc, List.count_cons, if_neg hdn]
        omega
      · rw [if_neg hc, if_neg hc]

/-- The neighbour loop preserves the tally invariant. -/
lemma foldl_visit_inv (grid alive : Finset Axial) (l : List Axial)
    (c : ℕ) (t : Tally) (h : t.Inv) :
    ((l.foldl (visitNeighbour grid alive) (c, t)).2).Inv := by
  induction l generalizing c t with
  | nil => exact h
  | cons n tl ih =>
    by_cases hg : n ∈ grid
    · by_cases ha : n ∈ alive
      · simp only [List.foldl_cons, visitNeighbour, hg, ha, if_true]
        exact ih (c + 1) t h
      · simp only [List.foldl_cons, visitNeighbour, hg, ha, if_true, if_false]
        exact ih c (t.bump n) (h.bump n)
    · simp only [List.foldl_cons, visitNeighbour, hg, if_false]
      exact ih c t h

/-- The second component of `surveyCell` is the tally state after the
neighbour loop. -/
lemma surveyCell_snd (grid alive : Finset Axial) (st : List Axial × Tally)
    (a : Axial) :
    (surveyCell grid alive st a).2 =
      ((neighbour_iter a).foldl (visitNeighbour grid alive) (0, st.2)).2 := rfl

/-- The removal queue accumulated by the survey: exactly the surveyed cells
whose alive-alive count is not 2, in iteration order. -/
lemma survey_foldl_fst (grid alive : Finset Axial) (order : List Axial)
    (st : List Axial × Tally) :
    (order.foldl (surveyCell grid alive) st).1 =
      st.1 ++ order.filter
        (fun x => decide (aliveAliveNeighbours grid alive x ≠ 2)) := by
  induction order generalizing st with
  | nil => simp
  | cons a tl ih =>
    rw [List.foldl_cons, ih]
    have hcount : (surveyCell grid alive st a).1 =
        st.1 ++ if aliveAliveNeighbours grid alive a ≠ 2 then [a] else [] := by
      unfold surveyCell
      dsimp only
      rw [foldl_visit_count, zero_add]
      by_cases hc : aliveAliveNeighbours grid alive a ≠ 2
      · rw [if_pos, if_pos hc]
        exact hc
      · rw [if_neg, if_neg hc, List.append_nil]
        exact hc
    rw [hcount, List.filter_cons]
    by_cases hc : aliveAliveNeighbours grid alive a ≠ 2
    · simp [hc]
    · have hc' : aliveAliveNeighbours grid alive a = 2 := not_not.mp hc
      simp [hc']

/-- Occurrence count in a duplicate-free list is the membership indicator. -/
lemma count_nodup_axial (d : Axial) (l : List Axial) (h : l.Nodup) :
    l.count d = if d ∈ l then 1 else 0 := by
  induction l with
  | nil => simp
  | cons b tl ih =>
    have hnd := List.nodup_cons.mp h
    rw [List.count_cons, ih hnd.2]
    by_cases hb : b = d
    · subst hb
      have hbeq : (b == b) = true := by simp
      rw [hbeq, if_pos rfl, if_neg hnd.1, if_pos (List.mem_cons_self b tl)]
    · have hbeq : (b == d) = false := by
        simp only [beq_eq_false_iff_ne, ne_eq]
        exact hb
      rw [hbeq]
      simp only [Bool.false_eq_true, if_false, add_zero, List.mem_cons]
      by_cases hd : d ∈ tl
      · rw [if_pos hd, if_pos (Or.inr hd)]
      · have hno : ¬(d = b ∨ d ∈ tl) := by
          rintro (h1 | h1)
          · exact hb h1.symm
          · exact hd h1
        rw [if_neg hd, if_neg hno]

/-- The tally accumulated by the survey, as a function of the pre-state. -/
lemma survey_foldl_val (grid alive : Finset Axial) (order : List Axial)
    (st : List Axial × Tally) (d : Axial) :
    ((order.foldl (surveyCell grid alive) st).2).val d =
      st.2.val d + (if d ∈ grid ∧ d ∉ alive
        then order.countP (fun x => decide (d ∈ neighbour_iter x)) else 0) := by
  induction order generalizing st with
  | nil => simp
  | cons a tl ih =>
    rw [List.foldl_cons, ih, surveyCell_snd,
      foldl_visit_val grid alive (neighbour_iter a) 0 st.2 d,
      count_nodup_axial d (neighbour_iter a) (nodup_neighbour_iter a),
      List.countP_cons]
    by_cases hc : d ∈ grid ∧ d ∉ alive
    · rw [if_pos hc, if_pos hc, if_pos hc]
      by_cases hm : d ∈ neighbour_iter a
      · have hm' : decide (d ∈ neighbour_iter a) = true := decide_eq_true hm
        rw [if_pos hm, if_pos hm']
        omega
      · have hm' : ¬decide (d ∈ neighbour_iter a) = true := by
          simp only [decide_eq_true_eq]
          exact hm
        rw [if_neg hm, if_neg hm']
        omega
    · rw [if_neg hc, if_neg hc, if_neg hc]

/-- The survey preserves the tally invariant. -/
lemma survey_foldl_inv (grid alive : Finset Axial) (order : List Axial)
    (st : List Axial × Tally) (h : st.2.Inv) :
    ((order.foldl (surveyCell grid alive) st).2).Inv := by
  induction order generalizing st with
  | nil => exact h
  | cons a tl ih =>
    rw [List.foldl_cons]
    apply ih
    rw [surveyCell_snd]
    exact foldl_visit_inv grid alive (neighbour_iter a) 0 st.2 h

/-- The removal queue of the full survey. -/
lemma survey_fst (grid alive : Finset Axial) (order : List Axial) :
    (survey grid alive order).1 =
      order.filter (fun x => decide (aliveAliveNeighbours grid alive x ≠ 2)) := by
  rw [survey, survey_foldl_fst, List.nil_append]

/-- The tally of the full survey. -/
lemma survey_val (grid alive : Finset Axial) (order : List Axial) (d : Axial) :
    ((survey grid alive order).2).val d =
      if d ∈ grid ∧ d ∉ alive
        then order.countP (fun x => decide (d ∈ neighbour_iter x)) else 0 := by
  rw [survey, survey_foldl_val, zero_add]

/-- The full survey satisfies the tally invariant. -/
lemma survey_inv (grid alive : Finset Axial) (order : List Axial) :
    ((survey grid alive order).2).Inv := by
  apply survey_foldl_inv
  intro x
  simp

/-- For an enumeration of the alive set, the survey tally of a dead grid
cell is its alive-neighbour count. -/
lemma survey_val_enum (grid alive : Finset Axial) (order : List Axial)
    (h : Enumerates order alive) (d : Axial) (hg : d ∈ grid) (hd : d ∉ alive) :
    ((survey grid alive order).2).val d = deadAliveNeighbours alive d := by
  rw [survey_val, if_pos ⟨hg, hd⟩]
  have h1 : order.countP (fun x => decide (d ∈ neighbour_iter x)) =
      order.countP (fun x => decide (x ∈ neighbour_iter d)) := by
    apply List.countP_congr
    intro x _
    simp [mem_neighbour_iter_comm]
  rw [h1, countP_mem_comm h.1 (nodup_neighbour_iter d)]
  apply List.countP_congr
  intro n _
  simp [h.2 n]

/-- Membership in the post-step alive set, characterised from the pre-step
partition: survivors are the alive cells with alive-alive count 2, births
are the dead grid cells with alive-neighbour count 2. -/
lemma game_of_life_mem (grid alive : Finset Axial) (order : List Axial)
    (h : Enumerates order alive) (x : Axial) :
    x ∈ game_of_life true grid alive order ↔
      (x ∈ alive ∧ aliveAliveNeighbours grid alive x = 2) ∨
        (x ∈ grid ∧ x ∉ alive ∧ deadAliveNeighbours alive x = 2) := by
  unfold game_of_life
  rw [if_neg (by simp)]
  dsimp only
  rw [Finset.mem_union, Finset.mem_sdiff, List.mem_toFinset, survey_fst,
    Finset.mem_filter]
  constructor
  · rintro (⟨hx, hnot⟩ | ⟨hk, hv⟩)
    · left
      refine ⟨hx, ?_⟩
      by_contra hne
      exact hnot (List.mem_filter.mpr ⟨(h.2 x).mpr hx, by simpa using hne⟩)
    · right
      have hpos := (survey_inv grid alive order x).mp hk
      rw [survey_val] at hpos hv
      by_cases hc : x ∈ grid ∧ x ∉ alive
      · refine ⟨hc.1, hc.2, ?_⟩
        rw [← survey_val_enum grid alive order h x hc.1 hc.2, survey_val,
          if_pos hc]
        rw [if_pos hc] at hv
        exact hv
      · rw [if_neg hc] at hpos
        exact absurd hpos (lt_irrefl 0)
  · rintro (⟨hx, hc⟩ | ⟨hg, hd, hc⟩)
    · left
      refine ⟨hx, fun hmem => ?_⟩
      rcases List.mem_filter.mp hmem with ⟨-, hne⟩
      have hne' : aliveAliveNeighbours grid alive x ≠ 2 := by
        simpa using hne
      exact hne' hc
    · right
      have hval : ((survey grid alive order).2).val x = 2 := by
        rw [survey_val_enum grid alive order h x hg hd]
        exact hc
      exact ⟨(survey_inv grid alive order x).mpr (by omega), hval⟩

/-- C6: one `game_of_life` step is a function of the pre-step alive/dead
partition alone — the deferred-mutation implementation (survey with queued
commands over any iteration order of the alive cells) equals the spec-level
step that computes the complete next-state set from the pre-step partition
before mutating any cell. -/
theorem game_of_life_two_phase (started : Bool) (grid alive : Finset Axial)
    (order : List Axial) (h : Enumerates order alive) :
    game_of_life started grid alive order =
      game_of_life_spec started grid alive := by
  cases started with
  | false => rfl
  | true =>
    apply Finset.ext
    intro x
    rw [game_of_life_mem grid alive order h x]
    simp only [game_of_life_spec, Bool.true_eq_false, if_false,
      Finset.mem_union, Finset.mem_filter, Finset.mem_sdiff]
    tauto

/-- C6 witness: the equivalence at a concrete one-cell state. -/
theorem game_of_life_two_phase_witness :
    Enumerates [((0 : ℤ), (0 : ℤ))] {((0 : ℤ), (0 : ℤ))} ∧
      game_of_life true {((0 : ℤ), (0 : ℤ))} {((0 : ℤ), (0 : ℤ))}
          [((0 : ℤ), (0 : ℤ))] =
        game_of_life_spec true {((0 : ℤ), (0 : ℤ))} {((0 : ℤ), (0 : ℤ))} := by
  have henum : Enumerates [((0 : ℤ), (0 : ℤ))] {((0 : ℤ), (0 : ℤ))} := by
    refine ⟨by decide, ?_⟩
    intro x
    simp
  exact ⟨henum, game_of_life_two_phase true _ _ _ henum⟩

/-- C1: an alive cell (running flag true) stays alive after the step when
its count of alive grid-present neighbours is exactly 2, and is dead after
the step when that count is 0, 1, 3, 4, 5 or 6. -/
theorem game_of_life_survival_rule (grid alive : Finset Axial)
    (order : List Axial) (a : Axial) (h : Enumerates order alive)
    (ha : a ∈ alive) :
    (aliveAliveNeighbours grid alive a = 2 →
        a ∈ game_of_life true grid alive order) ∧
      (aliveAliveNeighbours grid alive a = 0 ∨
          aliveAliveNeighbours grid alive a = 1 ∨
          aliveAliveNeighbours grid alive a = 3 ∨
          aliveAliveNeighbours grid alive a = 4 ∨
          aliveAliveNeighbours grid alive a = 5 ∨
          aliveAliveNeighbours grid alive a = 6 →
        a ∉ game_of_life true grid alive order) := by
  constructor
  · intro hc
    exact (game_of_life_mem grid alive order h a).mpr (Or.inl ⟨ha, hc⟩)
  · intro hc hmem
    rcases (game_of_life_mem grid alive order h a).mp hmem with
      ⟨-, h2⟩ | ⟨-, hdead, -⟩
    · omega
    · exact hdead ha

/-- C1 witness: in the alive triangle `(0,0), (1,0), (0,1)` each cell has
alive-alive count 2 and survives; an isolated alive cell has count 0 and
dies. -/
theorem game_of_life_survival_rule_witness :
    (((0 : ℤ), (0 : ℤ)) ∈
        ({((0 : ℤ), (0 : ℤ)), ((1 : ℤ), (0 : ℤ)), ((0 : ℤ), (1 : ℤ))} :
          Finset Axial) ∧
      aliveAliveNeighbours
          {((0 : ℤ), (0 : ℤ)), ((1 : ℤ), (0 : ℤ)), ((0 : ℤ), (1 : ℤ))}
          {((0 : ℤ), (0 : ℤ)), ((1 : ℤ), (0 : ℤ)), ((0 : ℤ), (1 : ℤ))}
          ((0 : ℤ), (0 : ℤ)) = 2 ∧
      ((0 : ℤ), (0 : ℤ)) ∈ game_of_life true
        {((0 : ℤ), (0 : ℤ)), ((1 : ℤ), (0 : ℤ)), ((0 : ℤ), (1 : ℤ))}
        {((0 : ℤ), (0 : ℤ)), ((1 : ℤ), (0 : ℤ)), ((0 : ℤ), (1 : ℤ))}
        [((0 : ℤ), (0 : ℤ)), ((1 : ℤ), (0 : ℤ)), ((0 : ℤ), (1 : ℤ))]) ∧
      (aliveAliveNeighbours {((0 : ℤ), (0 : ℤ))} {((0 : ℤ), (0 : ℤ))}
          ((0 : ℤ), (0 : ℤ)) = 0 ∧
        ((0 : ℤ), (0 : ℤ)) ∉ game_of_life true {((0 : ℤ), (0 : ℤ))}
          {((0 : ℤ), (0 : ℤ))} [((0 : ℤ), (0 : ℤ))]) := by
  have henum3 : Enumerates
      [((0 : ℤ), (0 : ℤ)), ((1 : ℤ), (0 : ℤ)), ((0 : ℤ), (1 : ℤ))]
      {((0 : ℤ), (0 : ℤ)), ((1 : ℤ), (0 : ℤ)), ((0 : ℤ), (1 : ℤ))} := by
    refine ⟨by decide, ?_⟩
    intro x
    simp
  have henum1 : Enumerates [((0 : ℤ), (0 : ℤ))] {((0 : ℤ), (0 : ℤ))} := by
    refine ⟨by decide, ?_⟩
    intro x
    simp
  refine ⟨⟨by decide, by decide, ?_⟩, by decide, ?_⟩
  · exact (game_of_life_survival_rule _ _ _ _ henum3 (by decide)).1 (by decide)
  · exact (game_of_life_survival_rule _ _ _ _ henum1 (by decide)).2
      (by decide)

/-- C2: a dead grid cell (running flag true) is alive after the step if and
only if exactly 2 of its grid-present neighbours were alive before the step
(assuming every alive cell is a grid cell, which `setup_system` guarantees). -/
theorem game_of_life_birth_rule (grid alive : Finset Axial)
    (order : List Axial) (d : Axial) (h : Enumerates order alive)
    (hsub : alive ⊆ grid) (hg : d ∈ grid) (hd : d ∉ alive) :
    d ∈ game_of_life true grid alive order ↔
      aliveAliveNeighbours grid alive d = 2 := by
  rw [game_of_life_mem grid alive order h d]
  have hcount : aliveAliveNeighbours grid alive d =
      deadAliveNeighbours alive d := by
    unfold aliveAliveNeighbours deadAliveNeighbours
    apply List.countP_congr
    intro n _
    simp only [decide_eq_true_eq]
    exact ⟨fun hx => hx.2, fun hx => ⟨hsub hx, hx⟩⟩
  constructor
  · rintro (⟨hx, -⟩ | ⟨-, -, hc⟩)
    · exact absurd hx hd
    · rw [hcount]
      exact hc
  · intro hc
    right
    refine ⟨hg, hd, ?_⟩
    rw [← hcount]
    exact hc

/-- C2 witness: a dead cell at the origin with the two alive neighbours
`(1,0)` and `(0,1)` is born. -/
theorem game_of_life_birth_rule_witness :
    (({((1 : ℤ), (0 : ℤ)), ((0 : ℤ), (1 : ℤ))} : Finset Axial) ⊆
        {((0 : ℤ), (0 : ℤ)), ((1 : ℤ), (0 : ℤ)), ((0 : ℤ), (1 : ℤ))} ∧
      ((0 : ℤ), (0 : ℤ)) ∈
        ({((0 : ℤ), (0 : ℤ)), ((1 : ℤ), (0 : ℤ)), ((0 : ℤ), (1 : ℤ))} :
          Finset Axial) ∧
      ((0 : ℤ), (0 : ℤ)) ∉
        ({((1 : ℤ), (0 : ℤ)), ((0 : ℤ), (1 : ℤ))} : Finset Axial)) ∧
      ((0 : ℤ), (0 : ℤ)) ∈ game_of_life true
        {((0 : ℤ), (0 : ℤ)), ((1 : ℤ), (0 : ℤ)), ((0 : ℤ), (1 : ℤ))}
        {((1 : ℤ), (0 : ℤ)), ((0 : ℤ), (1 : ℤ))}
        [((1 : ℤ), (0 : ℤ)), ((0 : ℤ), (1 : ℤ))] := by
  have henum : Enumerates [((1 : ℤ), (0 : ℤ)), ((0 : ℤ), (1 : ℤ))]
      {((1 : ℤ), (0 : ℤ)), ((0 : ℤ), (1 : ℤ))} := by
    refine ⟨by decide, ?_⟩
    intro x
    simp
  refine ⟨⟨by decide, by decide, by decide⟩, ?_⟩
  exact (game_of_life_birth_rule _ _ _ _ henum (by decide) (by decide)
    (by decide)).mpr (by decide)

/-- C10: over any duplicate-free iteration of alive cells, every value of
the transient dead-cell tally stays at most 6 (one increment per alive
neighbour, of which there are at most 6), in particular strictly below
`2 ^ 8`, so the `u8` counter of the source never wraps. -/
theorem survey_tally_le_six (grid alive : Finset Axial) (order : List Axial)
    (d : Axial) (h1 : order.Nodup) (_h2 : ∀ x ∈ order, x ∈ alive) :
    ((survey grid alive order).2).val d ≤ 6 ∧
      ((survey grid alive order).2).val d < 2 ^ 8 := by
  have hb : ((survey grid alive order).2).val d ≤ 6 := by
    rw [survey_val]
    by_cases hc : d ∈ grid ∧ d ∉ alive
    · rw [if_pos hc]
      have e1 : order.countP (fun x => decide (d ∈ neighbour_iter x)) =
          order.countP (fun x => decide (x ∈ neighbour_iter d)) := by
        apply List.countP_congr
        intro x _
        simp [mem_neighbour_iter_comm]
      rw [e1, countP_mem_comm h1 (nodup_neighbour_iter d)]
      calc (neighbour_iter d).countP (fun x => decide (x ∈ order)) ≤
            (neighbour_iter d).length := List.countP_le_length _
        _ = 6 := rfl
    · rw [if_neg hc]
      omega
  exact ⟨hb, by omega⟩

/-- C10 witness: a single alive origin cell tallies its dead neighbour
`(1,0)` at most 6 times. -/
theorem survey_tally_le_six_witness :
    ([((0 : ℤ), (0 : ℤ))].Nodup ∧
        ∀ x ∈ [((0 : ℤ), (0 : ℤ))],
          x ∈ ({((0 : ℤ), (0 : ℤ))} : Finset Axial)) ∧
      ((survey {((0 : ℤ), (0 : ℤ)), ((1 : ℤ), (0 : ℤ))} {((0 : ℤ), (0 : ℤ))}
            [((0 : ℤ), (0 : ℤ))]).2).val ((1 : ℤ), (0 : ℤ)) ≤ 6 ∧
        ((survey {((0 : ℤ), (0 : ℤ)), ((1 : ℤ), (0 : ℤ))} {((0 : ℤ), (0 : ℤ))}
            [((0 : ℤ), (0 : ℤ))]).2).val ((1 : ℤ), (0 : ℤ)) < 2 ^ 8 :=
  ⟨⟨by decide, by decide⟩,
    survey_tally_le_six _ _ _ _ (by decide) (by decide)⟩

/-- The `highlight_hex` pointer system.  External collaborators are modelled
by the `window` argument: `none` when `wnds.get(camera.window)` finds no
window (the source calls `.unwrap()` there, which panics — modelled as a
`none` result), `some cursor` otherwise, where `cursor` is `none` when
`wnd.cursor_position()` reports no active pointer and `some world_pos` the
pointer position after the external camera unprojection.  The result pairs
the (unchanged) grid key set with the new alive set; a `none` result models
a panic. -/
def highlight_hex (pressed : Bool) (window : Option (Option (ℚ × ℚ)))
    (grid alive : Finset Axial) : Option (Finset Axial × Finset Axial) :=
  if pressed = false then some (grid, alive)
  else
    match window with
    | none => none
    | some cursor =>
      match cursor with
      | none => some (grid, alive)
      | some world_pos =>
        let cube_float := screen_to_cube_float HEX_SIZE world_pos
        let cube := cube_round cube_float
        let axial := cube_to_axial cube
        if axial ∈ grid then
          if axial ∈ alive then some (grid, alive.erase axial)
          else some (grid, insert axial alive)
        else some (grid, alive)

/-- C7: a pointer press whose position maps, through
`screen_to_cube_float`, `cube_round` and the cube-to-axial projection, to a
coordinate absent from the hex map leaves every cell's alive state and the
grid key set unchanged. -/
theorem highlight_hex_out_of_grid_noop (world_pos : ℚ × ℚ)
    (grid alive : Finset Axial)
    (h : cube_to_axial (cube_round (screen_to_cube_float HEX_SIZE world_pos)) ∉
      grid) :
    highlight_hex true (some (some world_pos)) grid alive =
      some (grid, alive) := by
  unfold highlight_hex
  rw [if_neg (by simp)]
  dsimp only
  rw [if_neg h]

/-- C7 witness: the world position `(30, 0)` maps to the axial coordinate
`(2, -1)`, outside the one-cell grid at the origin. -/
theorem highlight_hex_out_of_grid_noop_witness :
    cube_to_axial (cube_round (screen_to_cube_float HEX_SIZE (30, 0))) ∉
        ({((0 : ℤ), (0 : ℤ))} : Finset Axial) ∧
      highlight_hex true (some (some (30, 0))) {((0 : ℤ), (0 : ℤ))}
          ({((0 : ℤ), (0 : ℤ))} : Finset Axial) =
        some ({((0 : ℤ), (0 : ℤ))}, {((0 : ℤ), (0 : ℤ))}) := by
  have h1 : screen_to_cube_float HEX_SIZE (30, 0) =
      (((2 : ℤ) : ℚ), ((-1 : ℤ) : ℚ) + 0, ((-2 - (-1) : ℤ) : ℚ) + -0) := by
    simp only [screen_to_cube_float, HEX_SIZE, SQRT_3, Prod.ext_iff]
    norm_num
  have h2 : cube_to_axial
      (cube_round (screen_to_cube_float HEX_SIZE (30, 0))) = (2, -1) := by
    rw [h1, cube_round_int_perturb 2 (-1) 0 (by norm_num)]
    rfl
  have h3 : cube_to_axial
      (cube_round (screen_to_cube_float HEX_SIZE (30, 0))) ∉
        ({((0 : ℤ), (0 : ℤ))} : Finset Axial) := by
    rw [h2]
    decide
  exact ⟨h3, highlight_hex_out_of_grid_noop (30, 0) _ _ h3⟩

/-- C8 counterexample: with the pointer pressed and the camera's window
absent, `highlight_hex` panics (the source `.unwrap()`s the window lookup)
instead of degrading to a no-op, so not every collaborator inconsistency is
a no-op. -/
theorem highlight_hex_absent_window_panics :
    highlight_hex true none {((0 : ℤ), (0 : ℤ))} (∅ : Finset Axial) = none ∧
      highlight_hex true none {((0 : ℤ), (0 : ℤ))} (∅ : Finset Axial) ≠
        some ({((0 : ℤ), (0 : ℤ))}, (∅ : Finset Axial)) := by
  constructor
  · rfl
  · intro h
    cases h

/-- C8 (amended): the pointer-toggle path degrades to a no-op for the frame
when no press occurred or when the present window reports no active pointer
position, and the automaton step with the running flag false leaves the
alive set unchanged; but the absent-window lookup is a fatal path
(`.unwrap()`), not a no-op. -/
theorem highlight_hex_degraded_noops (grid alive : Finset Axial) :
    (∀ window, highlight_hex false window grid alive = some (grid, alive)) ∧
      highlight_hex true (some none) grid alive = some (grid, alive) ∧
      ∀ order, game_of_life false grid alive order = alive := by
  refine ⟨fun window => rfl, rfl, fun order => rfl⟩
